import Mathlib

/-!
Verification development for the RAG (retrieval-augmented generation) pipeline
of a document question-answering service.

The embedding models:
* `split_into_chunks` — `PDFProcessor.split_into_chunks` (app/services/pdf_processor.py),
  the overlapping, sentence-boundary-aware text chunker.  Texts are `List Char`
  (mirroring Python `str`), slicing follows Python slice semantics (including
  negative indices, which the loop can produce), and the `while` loop is
  embedded with explicit fuel since its termination is one of the properties
  under study.
* `search_similar_chunks` — `EmbeddingService.search_similar_chunks`
  (app/services/embeddings.py), the brute-force cosine-similarity scan.
  Floats are modelled exactly: a similarity `dot/(‖q‖·‖c‖)` is represented as
  the pair `SimVal` of its numerator `dot(q,c)` and the square of its
  denominator `(Σq²)·(Σc²)`, both rationals; `den2 = 0` is the IEEE-NaN case
  `0/0` produced by a zero-norm vector.  Comparisons (`simLT`) decide the
  real-valued order of `num/√den2` by sign analysis and squaring, and are
  `false` whenever a NaN is involved, as in IEEE.  The Python `list.sort`
  (Timsort, stable, `reverse=True` keeps ties in input order) is modelled by a
  stable insertion sort, which agrees with any stable sort on totally ordered
  keys; entries carry a ghost input-position index `idx` so that stability can
  be stated.  Exceptions are modelled with `Except`: the bare `except` of the
  source catches everything and returns `[]`.
* `build_context` / `process_query` — `RAGService._build_context` and
  `RAGService.process_query` (app/services/rag.py).  The external
  collaborators (embedding backend, answer generator, history store) enter as
  `Except`-valued oracles; `process_query` additionally reports how many
  history-write attempts it made.  The 3-decimal display rounding of the
  similarity stored in a source reference is presentation-only and is kept as
  the exact value.
-/

/-! ### Python string primitives -/

/-- Python slice `s[a:b]` (step 1), including negative-index normalisation:
a negative bound counts from the end, bounds are clamped to `[0, len]`. -/
def pySliceIdx (n : Nat) (i : Int) : Nat :=
  if i < 0 then ((n : Int) + i).toNat else min i.toNat n

/-- Python `s[a:b]`. -/
def pySlice (s : List Char) (a b : Int) : List Char :=
  let a' := pySliceIdx s.length a
  let b' := pySliceIdx s.length b
  (s.drop a').take (b' - a')

/-- Python `str.strip()`: drop leading and trailing whitespace. -/
def pyStrip (s : List Char) : List Char :=
  ((s.dropWhile Char.isWhitespace).reverse.dropWhile Char.isWhitespace).reverse

/-- Python `s.rfind(c)` for a single character: highest index, `-1` if absent. -/
def rfindChar (s : List Char) (c : Char) : Int :=
  match s.reverse.findIdx? (· == c) with
  | some j => (s.length : Int) - 1 - (j : Int)
  | none => -1

/-- The `for ending in ['.', '!', '?', '\n']` loop of `split_into_chunks`:
starting from `-1`, keep the largest `rfind` position among the four
sentence-ending characters. -/
def lastSentenceEnding (s : List Char) : Int :=
  max (max (rfindChar s '.') (rfindChar s '!'))
    (max (rfindChar s '?') (rfindChar s '\n'))

/-! ### The chunker -/

/-- The `while start < len(text)` loop of `PDFProcessor.split_into_chunks`,
with explicit fuel (`none` = the fuel ran out before the loop exited).
`C` is `chunk_size`, `O` is `chunk_overlap`; `start` is an `Int` because
`start = end - overlap` can go negative after a boundary adjustment. -/
def chunkLoop (text : List Char) (C O : Nat) : Nat → Int → List (List Char) →
    Option (List (List Char))
  | 0, _, _ => none
  | fuel + 1, start, chunks =>
    if start < (text.length : Int) then
      let end0 : Int := start + (C : Int)
      let end1 : Int :=
        if end0 < (text.length : Int) then
          let searchStart : Int := max start (end0 - 100)
          let searchText := pySlice text searchStart end0
          let lastEnding := lastSentenceEnding searchText
          if lastEnding ≠ -1 then searchStart + lastEnding + 1 else end0
        else end0
      let chunk := pyStrip (pySlice text start end1)
      let chunks' := if chunk ≠ [] then chunks ++ [chunk] else chunks
      let start' := end1 - (O : Int)
      if (text.length : Int) ≤ start' then some chunks'
      else chunkLoop text C O fuel start' chunks'
    else some chunks

/-- `PDFProcessor.split_into_chunks(text)` with `chunk_size = C`,
`chunk_overlap = O`.  A text no longer than `chunk_size` is returned as the
single chunk `[text]`, verbatim. -/
def split_into_chunks (fuel : Nat) (C O : Nat) (text : List Char) :
    Option (List (List Char)) :=
  if text.length ≤ C then some [text] else chunkLoop text C O fuel 0 []

/-! ### Similarity values

`np.dot(q, c) / (np.linalg.norm(q) * np.linalg.norm(c))` is represented
exactly: `num = dot(q, c)` and `den2 = (Σq²)·(Σc²)`, the square of the
denominator.  The represented value is `num / √den2`; `den2 = 0` is the
`0/0 = NaN` float that numpy produces (with a warning, not an exception)
when either norm is zero. -/

structure SimVal where
  num : ℚ
  den2 : ℚ
deriving DecidableEq

/-- Dot product of two equal-length float vectors. -/
def dotList : List ℚ → List ℚ → ℚ
  | [], _ => 0
  | _, [] => 0
  | a :: as, b :: bs => a * b + dotList as bs

/-- `Σ v²`, the square of `np.linalg.norm v`. -/
def sumSq (v : List ℚ) : ℚ := dotList v v

/-- `np.dot` on 1-D arrays: raises `ValueError` on mismatched lengths. -/
def npDot (a b : List ℚ) : Except Unit ℚ :=
  if a.length = b.length then .ok (dotList a b) else .error ()

/-- Strict `<` on similarity values, deciding
`a.num/√a.den2 < b.num/√b.den2` by sign analysis and squaring.
Any comparison against a NaN (`den2 = 0`) is `false`, as for IEEE floats. -/
def simLT (a b : SimVal) : Bool :=
  if a.den2 = 0 ∨ b.den2 = 0 then false
  else if a.num < 0 ∧ 0 ≤ b.num then true
  else if 0 ≤ a.num ∧ b.num < 0 then false
  else if 0 ≤ a.num then a.num ^ 2 * b.den2 < b.num ^ 2 * a.den2
  else b.num ^ 2 * a.den2 < a.num ^ 2 * b.den2

/-- `s < t` for a similarity value against a plain float threshold `t`
(used by `_build_context` for `similarity < min_similarity`); `false` when
the similarity is NaN, as in Python. -/
def simLTQ (s : SimVal) (t : ℚ) : Bool :=
  if s.den2 = 0 then false
  else if s.num < 0 ∧ 0 ≤ t then true
  else if 0 ≤ s.num ∧ t < 0 then false
  else if 0 ≤ s.num then s.num ^ 2 < t ^ 2 * s.den2
  else t ^ 2 * s.den2 < s.num ^ 2

/-! ### The similarity search (`EmbeddingService.search_similar_chunks`) -/

/-- A row of the `embeddings` table joined with its parent document:
`user_id` is `Document.user_id` (the join target), `filename` is
`emb.document.filename` (`none` when the relation is unset), and an
empty `embedding` models a NULL/empty stored vector (falsy in Python). -/
structure EmbRecord where
  id : Nat
  document_id : Nat
  user_id : Int
  chunk_text : List Char
  chunk_index : Nat
  embedding : List ℚ
  filename : Option (List Char)
deriving DecidableEq

/-- One element of the `similarities` list: the record together with its
computed similarity, tagged with its position `idx` in that list (a ghost
index used only to state stability of the sort). -/
structure SimEntry where
  idx : Nat
  emb : EmbRecord
  sim : SimVal
deriving DecidableEq

/-- The `for emb in embeddings` loop: candidates with a falsy (empty)
stored vector are skipped; for the rest, `np.dot` either raises
(mismatched dimension — propagated to the caller's `except`) or yields the
cosine-similarity value `⟨dot, Σq²·Σc²⟩`. -/
def computeSims (q : List ℚ) : List EmbRecord → Nat → Except Unit (List SimEntry)
  | [], _ => .ok []
  | r :: rs, i =>
    if r.embedding ≠ [] then
      match npDot q r.embedding with
      | .error e => .error e
      | .ok d =>
        match computeSims q rs (i + 1) with
        | .error e => .error e
        | .ok rest => .ok (⟨i, r, ⟨d, sumSq q * sumSq r.embedding⟩⟩ :: rest)
    else computeSims q rs i

/-- Stable descending insertion: the new element `x` (earlier in input
order) is placed before the first element it is not strictly below, so
ties keep input order — the behaviour of Python's stable
`sort(key=..., reverse=True)`. -/
def insertDesc (x : SimEntry) : List SimEntry → List SimEntry
  | [] => [x]
  | h :: t => if simLT x.sim h.sim then h :: insertDesc x t else x :: h :: t

/-- `similarities.sort(key=lambda x: x['similarity'], reverse=True)`,
modelled as a stable insertion sort (equal to Timsort's result whenever
the keys are totally ordered). -/
def sortDesc : List SimEntry → List SimEntry
  | [] => []
  | x :: l => insertDesc x (sortDesc l)

/-- One returned result dict of `search_similar_chunks`. -/
structure SearchResult where
  id : Nat
  document_id : Nat
  chunk_text : List Char
  chunk_index : Nat
  similarity : SimVal
  document_filename : Option (List Char)
deriving DecidableEq

def entryToResult (e : SimEntry) : SearchResult :=
  ⟨e.emb.id, e.emb.document_id, e.emb.chunk_text, e.emb.chunk_index, e.sim,
    e.emb.filename⟩

/-- `user_id` truthiness: Python `if user_id:` is `False` exactly for
`None` and `0`. -/
def isTruthy : Option Int → Bool
  | none => false
  | some u => u ≠ 0

/-- The candidate set the scan runs over: the owner join/filter is applied
only when `user_id` is truthy. -/
def candidateSet (recs : List EmbRecord) (u : Option Int) : List EmbRecord :=
  if isTruthy u then recs.filter (fun r => u = some r.user_id) else recs

/-- The body of the `try:` block of `search_similar_chunks`: retrieval from
the store, the early `[]` return, the similarity loop, the stable descending
sort, and the `[:limit]` truncation. -/
def searchBody (recs : List EmbRecord) (q : List ℚ) (u : Option Int)
    (lim : Nat) : Except Unit (List SearchResult) :=
  if (candidateSet recs u).isEmpty then .ok []
  else
    match computeSims q (candidateSet recs u) 0 with
    | .error e => .error e
    | .ok sims => .ok (((sortDesc sims).take lim).map entryToResult)

/-- `EmbeddingService.search_similar_chunks`: the whole body is wrapped in
`try: ... except Exception: return []`, so a failing retrieval
(`db : Except`) or a raising similarity computation yields `[]`. -/
def search_similar_chunks (db : Except Unit (List EmbRecord)) (q : List ℚ)
    (u : Option Int) (lim : Nat) : List SearchResult :=
  match db with
  | .error _ => []
  | .ok recs =>
    match searchBody recs q u lim with
    | .error _ => []
    | .ok res => res

/-! ### The context builder (`RAGService._build_context`) -/

/-- One source-reference dict appended to `sources`.  The similarity is
kept exact (the source rounds the float to 3 decimals for display only). -/
structure Source where
  document_id : Nat
  document_filename : Option (List Char)
  chunk_index : Nat
  similarity : SimVal
deriving DecidableEq

def mkSource (c : SearchResult) : Source :=
  ⟨c.document_id, c.document_filename, c.chunk_index, c.similarity⟩

/-- Sum of the lengths of a list of texts. -/
def sumLen (parts : List (List Char)) : Nat := (parts.map List.length).sum

/-- The `for chunk in similar_chunks` loop of `_build_context`, carrying
`context_parts`, `sources` and `current_length`.  A chunk is skipped when
its similarity is below the threshold or its stripped text is empty; the
loop `break`s when `current_length + len(chunk_text) > max_context_length`
(note: the separator is not counted); otherwise the stripped text is
appended and a source is added unless its `document_id` is already
represented. -/
def buildLoop (minSim : ℚ) (maxLen : Nat) :
    List SearchResult → List (List Char) → List Source → Nat →
    List (List Char) × List Source
  | [], parts, sources, _ => (parts, sources)
  | c :: rest, parts, sources, currentLength =>
    if simLTQ c.similarity minSim then buildLoop minSim maxLen rest parts sources currentLength
    else
      let chunkText := pyStrip c.chunk_text
      if chunkText = [] then buildLoop minSim maxLen rest parts sources currentLength
      else if maxLen < currentLength + chunkText.length then (parts, sources)
      else
        let sources' :=
          if sources.any (fun s => s.document_id == c.document_id) then sources
          else sources ++ [mkSource c]
        buildLoop minSim maxLen rest (parts ++ [chunkText]) sources'
          (currentLength + chunkText.length)

/-- `"\n\n".join(parts)`. -/
def joinSep (sep : List Char) : List (List Char) → List Char
  | [] => []
  | [x] => x
  | x :: xs => x ++ sep ++ joinSep sep xs

/-- `RAGService._build_context(similar_chunks)`: returns
`(context_text, sources)`.  `minSim` and `maxLen` are the
`min_similarity_threshold` / `max_context_length` fields (0.7 and 4000 in
the constructor). -/
def build_context (chunks : List SearchResult) (minSim : ℚ) (maxLen : Nat) :
    List Char × List Source :=
  (joinSep ('\n' :: ['\n']) (buildLoop minSim maxLen chunks [] [] 0).1,
    (buildLoop minSim maxLen chunks [] [] 0).2)

/-! ### The orchestrator (`RAGService.process_query`) -/

/-- Python `"'"`, kept out of string literals. -/
def apos : Char := Char.ofNat 39

/-- "I couldn't find any relevant information in your documents to answer
this question." -/
def noRelevantAnswer : List Char :=
  "I couldn".data ++ [apos] ++
    "t find any relevant information in your documents to answer this question.".data

/-- "I couldn't find sufficiently relevant information in your documents to
answer this question." -/
def insufficientAnswer : List Char :=
  "I couldn".data ++ [apos] ++
    "t find sufficiently relevant information in your documents to answer this question.".data

/-- "I'm sorry, but I encountered an error while processing your query.
Please try again." -/
def errorAnswer : List Char :=
  "I".data ++ [apos] ++
    "m sorry, but I encountered an error while processing your query. Please try again.".data

/-- The dict returned by `process_query`.  The Python dicts have different
key sets per path: only the answered path carries `"query"`, only the error
path carries `"error"`; absent keys are `none`. -/
structure RagResponse where
  answer : List Char
  sources : List Source
  context_used : Bool
  query : Option (List Char)
  error : Option (List Char)
deriving DecidableEq

/-- The `except Exception` response of `process_query`. -/
def failedResponse (e : List Char) : RagResponse :=
  ⟨errorAnswer, [], false, none, some e⟩

/-- The "no similar chunks" terminal response. -/
def noRelevantResponse : RagResponse :=
  ⟨noRelevantAnswer, [], false, none, none⟩

/-- The "empty context" terminal response. -/
def insufficientResponse : RagResponse :=
  ⟨insufficientAnswer, [], false, none, none⟩

/-- The answered terminal response. -/
def answeredResponse (query answer : List Char) (sources : List Source) :
    RagResponse :=
  ⟨answer, sources, true, some query, none⟩

/-- `RAGService.process_query(query, user_id, db)`.  The external
collaborators appear as oracle values: `embedR` is the outcome of
`generate_embedding(query)`, `db` the outcome of the store retrieval inside
`search_similar_chunks`, `genR` the outcome of `generate_answer`, and
`histR` the outcome of `create_query_history` — whose failure is caught and
only logged, so it cannot influence the returned dict.  The second
component counts how many history-write attempts were made (the
`create_query_history` call sites reached). -/
def process_query (embedR : Except (List Char) (List ℚ))
    (db : Except Unit (List EmbRecord)) (genR : Except (List Char) (List Char))
    (histR : Except (List Char) Unit) (query : List Char) (user_id : Int) :
    RagResponse × Nat :=
  match embedR with
  | .error e => (failedResponse e, 0)
  | .ok queryEmbedding =>
    let similarChunks := search_similar_chunks db queryEmbedding (some user_id) 5
    if similarChunks = [] then (noRelevantResponse, 0)
    else
      let built := build_context similarChunks (7 / 10) 4000
      if built.1 = [] then (insufficientResponse, 0)
      else
        match genR with
        | .error e => (failedResponse e, 0)
        | .ok answer =>
          match histR with
          | _ => (answeredResponse query answer built.2, 1)
/-! ### Order lemmas for `simLT` -/

/-- `simLT` decides the real-valued order of the represented similarities
`num / √den2` (on non-NaN values). -/
lemma simLT_eq_true_iff (a b : SimVal) (ha : 0 < a.den2) (hb : 0 < b.den2) :
    simLT a b = true ↔
      (a.num : ℝ) / Real.sqrt (a.den2 : ℝ) < (b.num : ℝ) / Real.sqrt (b.den2 : ℝ) := by
  have keypos : ∀ x y : ℝ, 0 ≤ x → 0 ≤ y → (x < y ↔ x ^ 2 < y ^ 2) := by
    intro x y hx hy
    constructor
    · intro h; nlinarith
    · intro h; nlinarith
  have keyneg : ∀ x y : ℝ, x ≤ 0 → y ≤ 0 → (x < y ↔ y ^ 2 < x ^ 2) := by
    intro x y hx hy
    constructor
    · intro h; nlinarith
    · intro h; nlinarith
  have hA : (0:ℝ) < (a.den2 : ℝ) := by exact_mod_cast ha
  have hB : (0:ℝ) < (b.den2 : ℝ) := by exact_mod_cast hb
  have hsA : 0 < Real.sqrt (a.den2 : ℝ) := Real.sqrt_pos.mpr hA
  have hsB : 0 < Real.sqrt (b.den2 : ℝ) := Real.sqrt_pos.mpr hB
  have hsqA : Real.sqrt (a.den2:ℝ) ^ 2 = (a.den2:ℝ) := Real.sq_sqrt hA.le
  have hsqB : Real.sqrt (b.den2:ℝ) ^ 2 = (b.den2:ℝ) := Real.sq_sqrt hB.le
  rw [div_lt_div_iff₀ hsA hsB]
  unfold simLT
  rw [if_neg (by push_neg; exact ⟨ha.ne', hb.ne'⟩)]
  by_cases h1 : a.num < 0 ∧ 0 ≤ b.num
  · rw [if_pos h1]
    refine iff_of_true rfl ?_
    calc (a.num:ℝ) * Real.sqrt (b.den2:ℝ) < 0 :=
          mul_neg_of_neg_of_pos (by exact_mod_cast h1.1) hsB
      _ ≤ (b.num:ℝ) * Real.sqrt (a.den2:ℝ) :=
          mul_nonneg (by exact_mod_cast h1.2) hsA.le
  · rw [if_neg h1]
    by_cases h2 : 0 ≤ a.num ∧ b.num < 0
    · rw [if_pos h2]
      refine iff_of_false (by decide) (not_lt.mpr ?_)
      calc (b.num:ℝ) * Real.sqrt (a.den2:ℝ) ≤ 0 :=
            le_of_lt (mul_neg_of_neg_of_pos (by exact_mod_cast h2.2) hsA)
        _ ≤ (a.num:ℝ) * Real.sqrt (b.den2:ℝ) :=
            mul_nonneg (by exact_mod_cast h2.1) hsB.le
    · rw [if_neg h2]
      by_cases h3 : 0 ≤ a.num
      · have hbn : 0 ≤ b.num := by
          by_contra hc
          exact h2 ⟨h3, lt_of_not_le hc⟩
        have han' : (0:ℝ) ≤ (a.num:ℝ) := by exact_mod_cast h3
        have hbn' : (0:ℝ) ≤ (b.num:ℝ) := by exact_mod_cast hbn
        rw [if_pos h3, decide_eq_true_eq,
          keypos _ _ (mul_nonneg han' hsB.le) (mul_nonneg hbn' hsA.le),
          mul_pow, mul_pow, hsqA, hsqB]
        exact ⟨fun h => by exact_mod_cast h, fun h => by exact_mod_cast h⟩
      · have han : a.num < 0 := lt_of_not_le h3
        have hbn : b.num < 0 := by
          by_contra hc
          exact h1 ⟨han, le_of_not_lt hc⟩
        have han' : (a.num:ℝ) < 0 := by exact_mod_cast han
        have hbn' : (b.num:ℝ) < 0 := by exact_mod_cast hbn
        rw [if_neg h3, decide_eq_true_eq,
          keyneg _ _ (le_of_lt (mul_neg_of_neg_of_pos han' hsB))
            (le_of_lt (mul_neg_of_neg_of_pos hbn' hsA)),
          mul_pow, mul_pow, hsqA, hsqB]
        exact ⟨fun h => by exact_mod_cast h, fun h => by exact_mod_cast h⟩

lemma simLT_den2_ne_left (a b : SimVal) (h : simLT a b = true) : a.den2 ≠ 0 := by
  intro hz
  unfold simLT at h
  rw [if_pos (Or.inl hz)] at h
  exact Bool.false_ne_true h

lemma simLT_den2_ne_right (a b : SimVal) (h : simLT a b = true) : b.den2 ≠ 0 := by
  intro hz
  unfold simLT at h
  rw [if_pos (Or.inr hz)] at h
  exact Bool.false_ne_true h

/-- Asymmetry of the similarity comparison. -/
lemma simLT_asymm (a b : SimVal) (ha : 0 < a.den2) (hb : 0 < b.den2)
    (h : simLT a b = true) : simLT b a = false := by
  rw [Bool.eq_false_iff]
  intro h'
  rw [simLT_eq_true_iff a b ha hb] at h
  rw [simLT_eq_true_iff b a hb ha] at h'
  linarith

/-- Transitivity of the complement: `b ≤ a` and `c ≤ b` give `c ≤ a`. -/
lemma simLT_false_trans (a b c : SimVal) (ha : 0 < a.den2) (hb : 0 < b.den2)
    (hc : 0 < c.den2) (hab : simLT a b = false) (hbc : simLT b c = false) :
    simLT a c = false := by
  rw [Bool.eq_false_iff] at hab hbc ⊢
  have hab' := fun hlt => hab ((simLT_eq_true_iff a b ha hb).mpr hlt)
  have hbc' := fun hlt => hbc ((simLT_eq_true_iff b c hb hc).mpr hlt)
  intro h
  have hac' := (simLT_eq_true_iff a c ha hc).mp h
  have h1 := not_lt.mp hab'
  have h2 := not_lt.mp hbc'
  linarith

/-! ### The stable descending sort: permutation, order, stability -/

lemma mem_insertDesc (x y : SimEntry) (l : List SimEntry) :
    y ∈ insertDesc x l ↔ y = x ∨ y ∈ l := by
  induction l with
  | nil => simp [insertDesc]
  | cons h t ih =>
    unfold insertDesc
    by_cases hc : simLT x.sim h.sim = true
    · rw [if_pos hc]
      simp only [List.mem_cons, ih]
      tauto
    · rw [if_neg hc]
      simp only [List.mem_cons]

lemma insertDesc_perm (x : SimEntry) (l : List SimEntry) :
    (insertDesc x l).Perm (x :: l) := by
  induction l with
  | nil => simp [insertDesc]
  | cons h t ih =>
    unfold insertDesc
    by_cases hc : simLT x.sim h.sim = true
    · rw [if_pos hc]
      exact (List.Perm.cons h ih).trans (List.Perm.swap x h t)
    · rw [if_neg hc]

lemma sortDesc_perm (l : List SimEntry) : (sortDesc l).Perm l := by
  induction l with
  | nil => simp [sortDesc]
  | cons h t ih =>
    unfold sortDesc
    exact (insertDesc_perm h (sortDesc t)).trans (List.Perm.cons h ih)

lemma mem_sortDesc (y : SimEntry) (l : List SimEntry) :
    y ∈ sortDesc l ↔ y ∈ l := (sortDesc_perm l).mem_iff

lemma length_sortDesc (l : List SimEntry) :
    (sortDesc l).length = l.length := (sortDesc_perm l).length_eq

/-- Inserting into a descending-sorted list keeps it sorted (all entries
non-NaN). -/
lemma pairwise_insertDesc (x : SimEntry) (l : List SimEntry)
    (hx : 0 < x.sim.den2) (hl : ∀ e ∈ l, 0 < e.sim.den2)
    (hp : l.Pairwise (fun a b => simLT a.sim b.sim = false)) :
    (insertDesc x l).Pairwise (fun a b => simLT a.sim b.sim = false) := by
  induction l with
  | nil => simp [insertDesc]
  | cons h t ih =>
    have hh : 0 < h.sim.den2 := hl h (by simp)
    have ht : ∀ e ∈ t, 0 < e.sim.den2 := fun e he => hl e (by simp [he])
    rw [List.pairwise_cons] at hp
    unfold insertDesc
    by_cases hc : simLT x.sim h.sim = true
    · rw [if_pos hc]
      rw [List.pairwise_cons]
      constructor
      · intro y hy
        rw [mem_insertDesc] at hy
        rcases hy with hyx | hy
        · rw [hyx]
          exact simLT_asymm x.sim h.sim hx hh hc
        · exact hp.1 y hy
      · exact ih ht hp.2
    · rw [if_neg hc]
      rw [Bool.not_eq_true] at hc
      rw [List.pairwise_cons]
      constructor
      · intro y hy
        rcases List.mem_cons.mp hy with hyh | hy
        · subst hyh
          exact hc
        · exact simLT_false_trans x.sim h.sim y.sim hx hh (ht y hy) hc (hp.1 y hy)
      · rw [List.pairwise_cons]
        exact ⟨hp.1, hp.2⟩

/-- The sort output is descending: no element is strictly below a later
one (all entries non-NaN). -/
lemma sortDesc_sorted (l : List SimEntry) (hl : ∀ e ∈ l, 0 < e.sim.den2) :
    (sortDesc l).Pairwise (fun a b => simLT a.sim b.sim = false) := by
  induction l with
  | nil => simp [sortDesc]
  | cons h t ih =>
    unfold sortDesc
    refine pairwise_insertDesc h (sortDesc t) (hl h (by simp)) ?_ ?_
    · intro e he
      exact hl e (by simp [(mem_sortDesc e t).mp he])
    · exact ih (fun e he => hl e (by simp [he]))

/-- Inserting an element whose ghost index is below every index in the
list preserves the stability invariant. -/
lemma stable_insertDesc (x : SimEntry) (l : List SimEntry)
    (hidx : ∀ e ∈ l, x.idx < e.idx)
    (hp : l.Pairwise (fun a b =>
      simLT a.sim b.sim = false ∧ simLT b.sim a.sim = false → a.idx < b.idx)) :
    (insertDesc x l).Pairwise (fun a b =>
      simLT a.sim b.sim = false ∧ simLT b.sim a.sim = false → a.idx < b.idx) := by
  induction l with
  | nil => simp [insertDesc]
  | cons h t ih =>
    rw [List.pairwise_cons] at hp
    unfold insertDesc
    by_cases hc : simLT x.sim h.sim = true
    · rw [if_pos hc]
      rw [List.pairwise_cons]
      constructor
      · intro y hy
        rw [mem_insertDesc] at hy
        rcases hy with hyx | hy
        · rw [hyx]
          intro hcon
          rw [hcon.2] at hc
          exact absurd hc Bool.false_ne_true
        · exact hp.1 y hy
      · exact ih (fun e he => hidx e (by simp [he])) hp.2
    · rw [if_neg hc]
      rw [List.pairwise_cons]
      constructor
      · intro y hy
        intro hcon
        exact hidx y hy
      · rw [List.pairwise_cons]
        exact ⟨hp.1, hp.2⟩

/-- Stability: in the sorted output, entries with equivalent similarity
keep their input order (their ghost indices increase). -/
lemma sortDesc_stable (l : List SimEntry)
    (hinc : l.Pairwise (fun a b => a.idx < b.idx)) :
    (sortDesc l).Pairwise (fun a b =>
      simLT a.sim b.sim = false ∧ simLT b.sim a.sim = false → a.idx < b.idx) := by
  induction l with
  | nil => simp [sortDesc]
  | cons h t ih =>
    rw [List.pairwise_cons] at hinc
    unfold sortDesc
    refine stable_insertDesc h (sortDesc t) ?_ (ih hinc.2)
    intro e he
    exact hinc.1 e ((mem_sortDesc e t).mp he)

/-! ### Properties of the similarity loop -/

lemma dotList_nonneg_self (v : List ℚ) : 0 ≤ dotList v v := by
  induction v with
  | nil => simp [dotList]
  | cons a as ih =>
    unfold dotList
    have : 0 ≤ a * a := mul_self_nonneg a
    linarith

lemma sumSq_nonneg (v : List ℚ) : 0 ≤ sumSq v := dotList_nonneg_self v

/-- When every non-empty candidate vector has the query's dimension, the
similarity loop succeeds, keeps one entry per non-empty candidate (zero
norms included), computes `⟨dot, Σq²·Σc²⟩` for each, and numbers the
entries with strictly increasing positions starting at `i`. -/
lemma computeSims_ok (q : List ℚ) (recs : List EmbRecord) (i : Nat)
    (hdim : ∀ r ∈ recs, r.embedding ≠ [] → r.embedding.length = q.length) :
    ∃ sims, computeSims q recs i = .ok sims
      ∧ sims.length = (recs.filter (fun r => r.embedding ≠ [])).length
      ∧ (∀ e ∈ sims, e.emb ∈ recs ∧ e.emb.embedding ≠ [] ∧
          e.sim.num = dotList q e.emb.embedding ∧
          e.sim.den2 = sumSq q * sumSq e.emb.embedding ∧ i ≤ e.idx)
      ∧ sims.Pairwise (fun a b => a.idx < b.idx) := by
  induction recs generalizing i with
  | nil => exact ⟨[], rfl, by simp, by simp, by simp⟩
  | cons r rs ih =>
    by_cases hr : r.embedding ≠ []
    · have hlen : q.length = r.embedding.length :=
        (hdim r (by simp) hr).symm
      obtain ⟨rest, hrest, hlenr, hmem, hpw⟩ :=
        ih (i + 1) (fun s hs hne => hdim s (by simp [hs]) hne)
      refine ⟨⟨i, r, ⟨dotList q r.embedding, sumSq q * sumSq r.embedding⟩⟩ :: rest,
        ?_, ?_, ?_, ?_⟩
      · unfold computeSims npDot
        rw [if_pos hr, if_pos hlen, hrest]
      · simp [List.filter_cons, hr, hlenr]
      · intro e he
        rcases List.mem_cons.mp he with hee | he
        · rw [hee]
          exact ⟨by simp, hr, rfl, rfl, le_refl i⟩
        · obtain ⟨h1, h2, h3, h4, h5⟩ := hmem e he
          exact ⟨by simp [h1], h2, h3, h4, by omega⟩
      · rw [List.pairwise_cons]
        refine ⟨?_, hpw⟩
        intro e he
        have h5 := (hmem e he).2.2.2.2
        show i < e.idx
        omega
    · rw [not_not] at hr
      obtain ⟨rest, hrest, hlenr, hmem, hpw⟩ :=
        ih i (fun s hs hne => hdim s (by simp [hs]) hne)
      refine ⟨rest, ?_, ?_, ?_, hpw⟩
      · unfold computeSims
        rw [if_neg (by simp [hr]), hrest]
      · simp [List.filter_cons, hr, hlenr]
      · intro e he
        obtain ⟨h1, h2, h3, h4, h5⟩ := hmem e he
        exact ⟨by simp [h1], h2, h3, h4, h5⟩

/-- A candidate whose stored vector is non-empty but of the wrong
dimension makes the similarity loop raise. -/
lemma computeSims_error (q : List ℚ) (recs : List EmbRecord) (i : Nat)
    (hbad : ∃ r ∈ recs, r.embedding ≠ [] ∧ r.embedding.length ≠ q.length) :
    computeSims q recs i = .error () := by
  induction recs generalizing i with
  | nil => simp at hbad
  | cons r rs ih =>
    obtain ⟨s, hs, hne, hlen⟩ := hbad
    by_cases hr : r.embedding ≠ []
    · unfold computeSims npDot
      rw [if_pos hr]
      by_cases hql : q.length = r.embedding.length
      · rw [if_pos hql]
        have hsr : s ∈ rs := by
          rcases List.mem_cons.mp hs with hsr | hsr
          · exfalso
            rw [hsr] at hlen
            exact hlen hql.symm
          · exact hsr
        rw [ih (i + 1) ⟨s, hsr, hne, hlen⟩]
      · rw [if_neg hql]
    · rw [not_not] at hr
      have hsr : s ∈ rs := by
        rcases List.mem_cons.mp hs with hsr | hsr
        · exfalso
          rw [hsr, hr] at hne
          exact hne rfl
        · exact hsr
      unfold computeSims
      rw [if_neg (by simp [hr])]
      exact ih i ⟨s, hsr, hne, hlen⟩

/-! ### Properties of the context builder -/

lemma sumLen_append (xs ys : List (List Char)) :
    sumLen (xs ++ ys) = sumLen xs + sumLen ys := by
  unfold sumLen
  rw [List.map_append, List.sum_append]

/-- Length of a `sep.join`: the content plus one separator between each
adjacent pair. -/
lemma joinSep_length (sep : List Char) (parts : List (List Char)) :
    (joinSep sep parts).length = sumLen parts + sep.length * (parts.length - 1) := by
  induction parts with
  | nil => simp [joinSep, sumLen]
  | cons x xs ih =>
    cases xs with
    | nil => simp [joinSep, sumLen]
    | cons y ys =>
      show (x ++ sep ++ joinSep sep (y :: ys)).length = _
      rw [List.length_append, List.length_append, ih]
      have h1 : sumLen (x :: y :: ys) = x.length + sumLen (y :: ys) := by
        unfold sumLen
        simp
      rw [h1]
      have h2 : (y :: ys).length - 1 = ys.length := by simp
      have h3 : (x :: y :: ys).length - 1 = ys.length + 1 := by simp
      rw [h2, h3]
      ring

/-- The total length of the accepted chunk texts never exceeds the budget:
the loop keeps `current_length = Σ` of accepted lengths and `break`s before
any chunk that would push it past `maxLen`. -/
lemma buildLoop_sumLen (minSim : ℚ) (maxLen : Nat) (cs : List SearchResult) :
    ∀ parts sources currentLength, sumLen parts = currentLength →
      currentLength ≤ maxLen →
      sumLen (buildLoop minSim maxLen cs parts sources currentLength).1 ≤ maxLen := by
  induction cs with
  | nil =>
    intro parts sources cl h1 h2
    unfold buildLoop
    rw [← h1] at h2
    exact h2
  | cons c rest ih =>
    intro parts sources cl h1 h2
    unfold buildLoop
    by_cases hsim : simLTQ c.similarity minSim = true
    · rw [if_pos hsim]
      exact ih parts sources cl h1 h2
    · rw [if_neg hsim]
      by_cases hempty : pyStrip c.chunk_text = []
      · rw [if_pos hempty]
        exact ih parts sources cl h1 h2
      · rw [if_neg hempty]
        by_cases hover : maxLen < cl + (pyStrip c.chunk_text).length
        · rw [if_pos hover]
          rw [← h1] at h2
          exact h2
        · rw [if_neg hover]
          refine ih _ _ _ ?_ ?_
          · rw [sumLen_append, h1]
            simp [sumLen]
          · omega

/-- The accepted chunk texts extend the accumulator by an order-preserving
selection (a sublist) of the stripped input texts. -/
lemma buildLoop_sublist (minSim : ℚ) (maxLen : Nat) (cs : List SearchResult) :
    ∀ parts sources currentLength,
      ∃ added, (buildLoop minSim maxLen cs parts sources currentLength).1 = parts ++ added
        ∧ added.Sublist (cs.map (fun c => pyStrip c.chunk_text)) := by
  induction cs with
  | nil =>
    intro parts sources cl
    exact ⟨[], by simp [buildLoop], List.nil_sublist _⟩
  | cons c rest ih =>
    intro parts sources cl
    unfold buildLoop
    by_cases hsim : simLTQ c.similarity minSim = true
    · rw [if_pos hsim]
      obtain ⟨added, h1, h2⟩ := ih parts sources cl
      exact ⟨added, h1, h2.trans (List.sublist_cons_self _ _)⟩
    · rw [if_neg hsim]
      by_cases hempty : pyStrip c.chunk_text = []
      · rw [if_pos hempty]
        obtain ⟨added, h1, h2⟩ := ih parts sources cl
        exact ⟨added, h1, h2.trans (List.sublist_cons_self _ _)⟩
      · rw [if_neg hempty]
        by_cases hover : maxLen < cl + (pyStrip c.chunk_text).length
        · rw [if_pos hover]
          exact ⟨[], by simp, List.nil_sublist _⟩
        · rw [if_neg hover]
          obtain ⟨added, h1, h2⟩ :=
            ih (parts ++ [pyStrip c.chunk_text]) _ (cl + (pyStrip c.chunk_text).length)
          refine ⟨pyStrip c.chunk_text :: added, ?_, ?_⟩
          · rw [h1, List.append_assoc]
            rfl
          · exact List.cons_sublist_cons.mpr h2 |>.trans (by simp)

/-- Source dedup invariant: distinct `document_id`s, and never more source
entries than accepted chunks. -/
lemma buildLoop_sources (minSim : ℚ) (maxLen : Nat) (cs : List SearchResult) :
    ∀ parts sources currentLength,
      sources.Pairwise (fun s t => s.document_id ≠ t.document_id) →
      sources.length ≤ parts.length →
      (buildLoop minSim maxLen cs parts sources currentLength).2.Pairwise
        (fun s t => s.document_id ≠ t.document_id)
      ∧ (buildLoop minSim maxLen cs parts sources currentLength).2.length ≤
          (buildLoop minSim maxLen cs parts sources currentLength).1.length := by
  induction cs with
  | nil =>
    intro parts sources cl h1 h2
    exact ⟨h1, h2⟩
  | cons c rest ih =>
    intro parts sources cl h1 h2
    unfold buildLoop
    by_cases hsim : simLTQ c.similarity minSim = true
    · rw [if_pos hsim]
      exact ih parts sources cl h1 h2
    · rw [if_neg hsim]
      by_cases hempty : pyStrip c.chunk_text = []
      · rw [if_pos hempty]
        exact ih parts sources cl h1 h2
      · rw [if_neg hempty]
        by_cases hover : maxLen < cl + (pyStrip c.chunk_text).length
        · rw [if_pos hover]
          exact ⟨h1, h2⟩
        · rw [if_neg hover]
          by_cases hdup : sources.any (fun s => s.document_id == c.document_id) = true
          · rw [if_pos hdup]
            refine ih _ _ _ h1 ?_
            rw [List.length_append]
            omega
          · rw [if_neg hdup]
            refine ih _ _ _ ?_ ?_
            · rw [List.pairwise_append]
              refine ⟨h1, by simp, ?_⟩
              intro s hs t ht
              rw [List.mem_singleton] at ht
              rw [ht]
              show s.document_id ≠ (mkSource c).document_id
              rw [List.any_eq_true] at hdup
              push_neg at hdup
              have := hdup s hs
              simpa using this
            · rw [List.length_append, List.length_append]
              simp only [List.length_singleton]
              omega

/-! ### Concrete fixtures used in the claim theorems -/

/-- The chunking scenario text of the specification. -/
def scenarioText : List Char := ("Sentence one. Sentence two. Sentence three.").data

def wellformedRec : EmbRecord := ⟨1, 1, 1, ("alpha").data, 0, [1], some ("a.pdf").data⟩

def mismatchedRec : EmbRecord := ⟨2, 1, 1, ("beta").data, 1, [1, 2], some ("a.pdf").data⟩

def zeroNormRec : EmbRecord := ⟨3, 2, 1, ("gamma").data, 0, [0], none⟩

def otherUserRec : EmbRecord := ⟨4, 3, 2, ("delta").data, 0, [1], none⟩

/-- On the scenario text with `chunk_size = 20`, `overlap = 5`, window start
22 is a fixed point of the loop: the boundary search in `text[22:42]` finds
the period at offset 4, so `end = 27` and the next start is `27 - 5 = 22`
again, appending the chunk `"two."` forever. -/
lemma chunkLoop_scenario_stuck (fuel : Nat) :
    ∀ chunks, chunkLoop scenarioText 20 5 fuel 22 chunks = none := by
  induction fuel with
  | zero => intro chunks; rfl
  | succ n ih =>
    intro chunks
    have hstep : chunkLoop scenarioText 20 5 (n + 1) 22 chunks =
        chunkLoop scenarioText 20 5 n 22 (chunks ++ [("two.").data]) := rfl
    rw [hstep]
    exact ih _

/-- C1: the claim asserts `split_into_chunks` terminates for every input
satisfying `chunk_size > 0` and `overlap < chunk_size`, and in particular
terminates with at least 2 chunks on the scenario text with
`chunk_size = 20`, `overlap = 5`.  The code instead loops forever on that
very scenario: after two iterations the window start reaches 22, where the
sentence-boundary adjustment sets `end = 27` and the next start back to
`27 - 5 = 22`, appending the chunk `"two."` on every iteration — for every
amount of fuel the loop is still running (the preconditions `0 < 20` and
`5 < 20` hold). -/
theorem C1_chunker_nontermination :
    (∀ fuel, split_into_chunks fuel 20 5 scenarioText = none)
    ∧ (∀ fuel chunks, chunkLoop scenarioText 20 5 fuel 22 chunks = none)
    ∧ 0 < 20 ∧ 5 < 20 := by
  refine ⟨?_, fun fuel => chunkLoop_scenario_stuck fuel, by norm_num, by norm_num⟩
  intro fuel
  unfold split_into_chunks
  rw [if_neg (by decide)]
  match fuel with
  | 0 => rfl
  | 1 => rfl
  | (n + 2) =>
    have hstep : chunkLoop scenarioText 20 5 (n + 2) 0 [] =
        chunkLoop scenarioText 20 5 n 22
          [("Sentence one.").data, ("one. Sentence two.").data] := rfl
    rw [hstep]
    exact chunkLoop_scenario_stuck n _

/-- C8 (counterexample): for short inputs the chunker returns the text
verbatim, not trimmed — on `" a "` it returns `[" a "]` instead of the
trimmed `["a"]`, and on the empty text it returns `[""]` instead of no
chunk at all. -/
theorem C8_short_text_returned_untrimmed :
    split_into_chunks 10 1000 200 ((" a ").data) = some [(" a ").data]
    ∧ pyStrip ((" a ").data) = ("a").data
    ∧ (" a ").data ≠ ("a").data
    ∧ split_into_chunks 10 1000 200 ([] : List Char) = some [([] : List Char)] := by
  refine ⟨rfl, by decide, by decide, rfl⟩

/-- C8 (amended): for every text with `len(text) <= chunk_size` the chunker
returns exactly one chunk equal to the *untrimmed* input — also when the
input is empty or whitespace-only. -/
theorem C8_short_text_single_chunk (text : List Char) (C O fuel : Nat)
    (h : text.length ≤ C) : split_into_chunks fuel C O text = some [text] := by
  unfold split_into_chunks
  rw [if_pos h]

theorem C8_short_text_single_chunk_witness :
    ("abc").data.length ≤ 1000
    ∧ split_into_chunks 0 1000 200 (("abc").data) = some [("abc").data] :=
  ⟨by decide, C8_short_text_single_chunk (("abc").data) 1000 200 0 (by decide)⟩

/-- C2: the owner filter is applied only for a truthy `user_id`: for `None`
and for `0` the candidate set is the whole store, and the search result can
differ between two stores that differ only in another user's embeddings
(here: adding a record owned by user 2 changes the result of a
`user_id = 0` search). -/
theorem C2_falsy_user_id_unscoped :
    (∀ recs, candidateSet recs none = recs)
    ∧ (∀ recs, candidateSet recs (some 0) = recs)
    ∧ (∀ recs uid, uid ≠ 0 →
        candidateSet recs (some uid) = recs.filter (fun r => some uid = some r.user_id))
    ∧ search_similar_chunks (.ok []) [1] (some 0) 5 ≠
        search_similar_chunks (.ok [otherUserRec]) [1] (some 0) 5
    ∧ otherUserRec.user_id = 2 := by
  refine ⟨fun recs => rfl, fun recs => rfl, ?_, by decide, rfl⟩
  intro recs uid h
  unfold candidateSet
  rw [if_pos (by simp [isTruthy, h])]

theorem C2_falsy_user_id_unscoped_witness :
    candidateSet [otherUserRec] (some 2) =
      [otherUserRec].filter (fun r => some 2 = some r.user_id) :=
  C2_falsy_user_id_unscoped.2.2.1 [otherUserRec] 2 (by decide)

/-- C3 (counterexample): one dimension-mismatched candidate in the store
makes the whole scan return `[]` — the remaining well-formed candidate is
lost too, the opposite of the claimed skip-and-continue policy. -/
theorem C3_mismatch_aborts_scan :
    search_similar_chunks (.ok [wellformedRec, mismatchedRec]) [1] none 5 = []
    ∧ mismatchedRec.embedding ≠ []
    ∧ mismatchedRec.embedding.length ≠ ([1] : List ℚ).length
    ∧ wellformedRec.embedding.length = ([1] : List ℚ).length
    ∧ search_similar_chunks (.ok [wellformedRec]) [1] none 5 ≠ [] := by
  refine ⟨rfl, by decide, by decide, by decide, by decide⟩

/-- Unfolding `search_similar_chunks` on a successful retrieval. -/
lemma search_similar_chunks_ok (recs : List EmbRecord) (q : List ℚ)
    (u : Option Int) (lim : Nat) :
    search_similar_chunks (.ok recs) q u lim =
      match searchBody recs q u lim with
      | .error _ => []
      | .ok res => res := rfl

/-- C3 (amended): whenever some candidate of the scanned set has a
non-empty stored vector of a dimension different from the query's, the dot
product raises, the outer `except` catches it, and `search_similar_chunks`
returns the empty list — no ranked results from the well-formed candidates
survive. -/
theorem C3_mismatch_empties_scan (recs : List EmbRecord) (q : List ℚ)
    (u : Option Int) (lim : Nat)
    (hbad : ∃ r ∈ candidateSet recs u,
      r.embedding ≠ [] ∧ r.embedding.length ≠ q.length) :
    search_similar_chunks (.ok recs) q u lim = [] := by
  have herr := computeSims_error q (candidateSet recs u) 0 hbad
  have hne : (candidateSet recs u).isEmpty ≠ true := by
    obtain ⟨r, hr, _, _⟩ := hbad
    cases h : candidateSet recs u with
    | nil => rw [h] at hr; simp at hr
    | cons a t => simp [List.isEmpty]
  rw [search_similar_chunks_ok]
  unfold searchBody
  rw [if_neg hne, herr]

theorem C3_mismatch_empties_scan_witness :
    search_similar_chunks (.ok [wellformedRec, mismatchedRec]) [1] none 3 = [] :=
  C3_mismatch_empties_scan [wellformedRec, mismatchedRec] [1] none 3
    ⟨mismatchedRec, by decide, by decide, by decide⟩

/-- The `except`-path of the scan. -/
lemma search_similar_chunks_error (q : List ℚ) (u : Option Int) (lim : Nat) :
    search_similar_chunks (.error ()) q u lim = [] := rfl

lemma candidateSet_nil (u : Option Int) : candidateSet [] u = [] := by
  unfold candidateSet
  split <;> rfl

/-- Scanning an empty store returns `[]`. -/
lemma search_similar_chunks_nil (q : List ℚ) (u : Option Int) (lim : Nat) :
    search_similar_chunks (.ok []) q u lim = [] := by
  rw [search_similar_chunks_ok]
  unfold searchBody
  rw [candidateSet_nil]
  rfl

/-- C4: `search_similar_chunks` never raises — a failing store retrieval is
caught and yields `[]`, which `process_query` cannot distinguish from "no
matching chunks": it returns the fixed NoContext answer with
`context_used = false` and no error field, exactly as for an empty store,
never the Failed-state response. -/
theorem C4_retrieval_failure_is_nocontext :
    (∀ q u lim, search_similar_chunks (.error ()) q u lim = [])
    ∧ (∀ qe genR histR query uid,
        process_query (.ok qe) (.error ()) genR histR query uid =
          process_query (.ok qe) (.ok []) genR histR query uid)
    ∧ (∀ qe genR histR query uid,
        process_query (.ok qe) (.error ()) genR histR query uid =
          (noRelevantResponse, 0))
    ∧ noRelevantResponse.context_used = false
    ∧ noRelevantResponse.answer = noRelevantAnswer
    ∧ (∀ e, noRelevantResponse ≠ failedResponse e) := by
  refine ⟨fun q u lim => rfl, ?_,
    fun qe genR histR query uid => rfl, rfl, rfl, ?_⟩
  · intro qe genR histR query uid
    simp [process_query, search_similar_chunks_nil, search_similar_chunks_error]
  · intro e h
    have := congrArg RagResponse.answer h
    simp only [noRelevantResponse, failedResponse] at this
    exact absurd this (by decide)

/-- C5 (counterexample): a candidate whose stored vector has zero norm is
not excluded: the scan over the single candidate `[0]` (against query
`[1]`) returns exactly one result whose similarity denominator-square
`Σq²·Σc²` is `0` — the cosine division is evaluated as `0/0` (float NaN)
and the candidate is included, not dropped. -/
theorem C5_zero_norm_included :
    (search_similar_chunks (.ok [zeroNormRec]) [1] none 5).map
        (fun r => (r.id, r.similarity.den2)) =
      [(3, sumSq [1] * sumSq zeroNormRec.embedding)]
    ∧ sumSq [1] * sumSq zeroNormRec.embedding = 0
    ∧ zeroNormRec.embedding ≠ []
    ∧ (search_similar_chunks (.ok [zeroNormRec]) [1] none 5).length = 1 := by
  refine ⟨rfl, ?_, by decide, rfl⟩
  norm_num [sumSq, dotList, zeroNormRec]

/-- C5 (amended): the similarity loop never excludes a zero-norm candidate
(only empty stored vectors are skipped): every non-empty candidate of the
query's dimension yields exactly one entry whose denominator-square is
`Σq²·Σc²` — which is `0`, i.e. the cosine division is evaluated with a
zero denominator, exactly when the query or the candidate has zero norm. -/
theorem C5_zero_norm_not_excluded (q : List ℚ) (recs : List EmbRecord)
    (hdim : ∀ r ∈ recs, r.embedding ≠ [] → r.embedding.length = q.length) :
    ∃ sims, computeSims q recs 0 = .ok sims
      ∧ sims.length = (recs.filter (fun r => r.embedding ≠ [])).length
      ∧ ∀ e ∈ sims, e.sim.num = dotList q e.emb.embedding
          ∧ e.sim.den2 = sumSq q * sumSq e.emb.embedding := by
  obtain ⟨sims, h1, h2, h3, _⟩ := computeSims_ok q recs 0 hdim
  exact ⟨sims, h1, h2, fun e he => ⟨(h3 e he).2.2.1, (h3 e he).2.2.2.1⟩⟩

theorem C5_zero_norm_not_excluded_witness :
    ∃ sims, computeSims [1] [zeroNormRec] 0 = .ok sims
      ∧ sims.length = ([zeroNormRec].filter (fun r => r.embedding ≠ [])).length
      ∧ ∀ e ∈ sims, e.sim.num = dotList [1] e.emb.embedding
          ∧ e.sim.den2 = sumSq [1] * sumSq e.emb.embedding :=
  C5_zero_norm_not_excluded [1] [zeroNormRec] (by decide)

/-- Three above-threshold results of 4, 3 and 3 characters from distinct
documents: all are accepted under a 10-character budget because the check
counts only chunk text, yet the joined context has `4+3+3 = 10` characters
of text plus `2·2 = 4` of separators. -/
def budgetResults : List SearchResult :=
  [⟨1, 1, ("aaaa").data, 0, ⟨1, 1⟩, none⟩,
   ⟨2, 2, ("bbb").data, 0, ⟨1, 1⟩, none⟩,
   ⟨3, 3, ("ccc").data, 0, ⟨1, 1⟩, none⟩]

/-- C6 (counterexample): the builder checks the chunk text *without* the
separator against the budget, so the returned `context_text` can be longer
than `max_context_chars + 2`: with a budget of 10 the three results above
produce a context of length 14 > 12. -/
theorem C6_context_exceeds_budget_slack :
    ((build_context budgetResults (7 / 10) 10).1).length = 14
    ∧ 10 + 2 < 14 := by
  have hsim : simLTQ ⟨1, 1⟩ (7 / 10) = false := by
    norm_num [simLTQ]
  have ha : pyStrip (("aaaa").data) = ("aaaa").data := by decide
  have hb : pyStrip (("bbb").data) = ("bbb").data := by decide
  have hc : pyStrip (("ccc").data) = ("ccc").data := by decide
  refine ⟨?_, by norm_num⟩
  norm_num [build_context, buildLoop, budgetResults, hsim, ha, hb, hc, joinSep]

/-- C6 (amended): the builder checks each stripped chunk text (without any
separator) against the budget and stops at the first chunk that would
exceed it, dropping all later results and never reordering (the accepted
texts are an order-preserving sublist of the stripped inputs); the sum of
accepted text lengths never exceeds `max_context_chars`, so `context_text`
is at most `max_context_chars + 2·(number of accepted chunks − 1)` — not
`max_context_chars + 2`. -/
theorem C6_budget_without_separators (cs : List SearchResult) (minSim : ℚ)
    (maxLen : Nat) :
    sumLen (buildLoop minSim maxLen cs [] [] 0).1 ≤ maxLen
    ∧ (build_context cs minSim maxLen).1.length ≤
        maxLen + 2 * ((buildLoop minSim maxLen cs [] [] 0).1.length - 1)
    ∧ (buildLoop minSim maxLen cs [] [] 0).1.Sublist
        (cs.map (fun c => pyStrip c.chunk_text)) := by
  have hsum := buildLoop_sumLen minSim maxLen cs [] [] 0 rfl (Nat.zero_le _)
  refine ⟨hsum, ?_, ?_⟩
  · have hj : (build_context cs minSim maxLen).1 =
        joinSep ('\n' :: ['\n']) (buildLoop minSim maxLen cs [] [] 0).1 := rfl
    rw [hj, joinSep_length]
    have h2 : ('\n' :: ['\n']).length = 2 := rfl
    rw [h2]
    omega
  · obtain ⟨added, h1, h2⟩ := buildLoop_sublist minSim maxLen cs [] [] 0
    rw [h1]
    simpa using h2

/-- C7 (counterexample): a query that reaches the NoContext terminal state
(store holds no chunks for the user) makes zero history-write attempts,
refuting "exactly one QueryRecord write attempt per terminal state". -/
theorem C7_no_history_write_on_nocontext :
    process_query (.ok [1]) (.ok []) (.ok (("ans").data)) (.ok ())
      (("q").data) 1 = (noRelevantResponse, 0)
    ∧ (0 : Nat) ≠ 1 := by
  constructor
  · simp [process_query, search_similar_chunks_nil]
  · norm_num

/-- C7 (amended): only the Answered path attempts a history write — exactly
one, i.e. `attempts = 1` exactly when `context_used = true` — while the
NoContext and Failed paths attempt none; and the returned response never
depends on the history-write outcome: if the write raises, the exception is
swallowed and the response is identical to the success case. -/
theorem C7_history_write_best_effort (e : Except (List Char) (List ℚ))
    (db : Except Unit (List EmbRecord)) (g : Except (List Char) (List Char))
    (h h' : Except (List Char) Unit) (query : List Char) (uid : Int) :
    (process_query e db g h query uid).1 = (process_query e db g h' query uid).1
    ∧ (process_query e db g h query uid).2 =
        (if (process_query e db g h query uid).1.context_used then 1 else 0) := by
  constructor
  · cases e with
    | error e => rfl
    | ok qe =>
      by_cases hs : search_similar_chunks db qe (some uid) 5 = []
      · simp [process_query, hs]
      · by_cases hc :
          (build_context (search_similar_chunks db qe (some uid) 5) (7 / 10) 4000).1 = []
        · simp [process_query, hs, hc]
        · cases g with
          | error ge => simp [process_query, hs, hc]
          | ok ans => simp [process_query, hs, hc]
  · cases e with
    | error e => rfl
    | ok qe =>
      by_cases hs : search_similar_chunks db qe (some uid) 5 = []
      · simp [process_query, hs, noRelevantResponse]
      · by_cases hc :
          (build_context (search_similar_chunks db qe (some uid) 5) (7 / 10) 4000).1 = []
        · simp [process_query, hs, hc, insufficientResponse]
        · cases g with
          | error ge => simp [process_query, hs, hc, failedResponse]
          | ok ans => simp [process_query, hs, hc, answeredResponse]

/-- C10: the sources returned by the context builder are deduplicated by
document: no two entries share a `document_id` (only the first accepted
result of each document adds a source), while every accepted chunk —
including later ones from an already-represented document — contributes
its text, so there are never more sources than accepted text parts. -/
theorem C10_sources_deduplicated (cs : List SearchResult) (minSim : ℚ)
    (maxLen : Nat) :
    (build_context cs minSim maxLen).2.Pairwise
      (fun s t => s.document_id ≠ t.document_id)
    ∧ (build_context cs minSim maxLen).2.length ≤
        (buildLoop minSim maxLen cs [] [] 0).1.length := by
  have h := buildLoop_sources minSim maxLen cs [] [] 0 (by simp) (by simp)
  exact ⟨h.1, h.2⟩

/-- C9: for well-formed candidate sets (each non-empty stored vector has
the query's dimension and neither the query nor any candidate has zero
norm, so each comparison key is an actual number), the search returns the
stable descending sort of the per-candidate similarities truncated to
`limit` after sorting: the output is sorted descending, ties keep the
candidate input order (strictly increasing ghost positions), the length is
`min limit n` (all candidates are returned when fewer than `limit` exist),
and the function is deterministic. -/
theorem C9_search_ranked_stable_truncated (recs : List EmbRecord)
    (q : List ℚ) (u : Option Int) (lim : Nat)
    (hq : sumSq q ≠ 0)
    (hr : ∀ r ∈ candidateSet recs u, r.embedding ≠ [] →
      r.embedding.length = q.length ∧ sumSq r.embedding ≠ 0) :
    ∃ sims, computeSims q (candidateSet recs u) 0 = .ok sims
      ∧ search_similar_chunks (.ok recs) q u lim =
          ((sortDesc sims).take lim).map entryToResult
      ∧ (search_similar_chunks (.ok recs) q u lim).Pairwise
          (fun x y => simLT x.similarity y.similarity = false)
      ∧ (sortDesc sims).Pairwise (fun a b =>
          simLT a.sim b.sim = false ∧ simLT b.sim a.sim = false → a.idx < b.idx)
      ∧ (search_similar_chunks (.ok recs) q u lim).length =
          min lim ((candidateSet recs u).filter (fun r => r.embedding ≠ [])).length
      ∧ (sims.length ≤ lim →
          search_similar_chunks (.ok recs) q u lim = (sortDesc sims).map entryToResult)
      ∧ search_similar_chunks (.ok recs) q u lim =
          search_similar_chunks (.ok recs) q u lim := by
  obtain ⟨sims, hok, hlen, hmem, hidx⟩ :=
    computeSims_ok q (candidateSet recs u) 0 (fun r h hne => (hr r h hne).1)
  have hpos : ∀ e ∈ sims, 0 < e.sim.den2 := by
    intro e he
    obtain ⟨h1, h2, _, h4, _⟩ := hmem e he
    rw [h4]
    have hq' : 0 < sumSq q := lt_of_le_of_ne (sumSq_nonneg q) (Ne.symm hq)
    have hc' : 0 < sumSq e.emb.embedding :=
      lt_of_le_of_ne (sumSq_nonneg _) (Ne.symm (hr e.emb h1 h2).2)
    exact mul_pos hq' hc'
  have hsearch : search_similar_chunks (.ok recs) q u lim =
      ((sortDesc sims).take lim).map entryToResult := by
    rw [search_similar_chunks_ok]
    unfold searchBody
    by_cases hemp : (candidateSet recs u).isEmpty = true
    · have hnil : candidateSet recs u = [] := by
        cases h : candidateSet recs u with
        | nil => rfl
        | cons a t => rw [h] at hemp; simp [List.isEmpty] at hemp
      rw [hnil] at hok
      have hs0 : sims = [] := by
        have h0 : computeSims q [] 0 = Except.ok ([] : List SimEntry) := rfl
        rw [h0] at hok
        exact (Except.ok.inj hok).symm
      rw [if_pos hemp, hs0]
      simp [sortDesc]
    · rw [if_neg hemp, hok]
  refine ⟨sims, hok, hsearch, ?_, sortDesc_stable sims hidx, ?_, ?_, rfl⟩
  · rw [hsearch, List.pairwise_map]
    exact ((sortDesc_sorted sims hpos).sublist (List.take_sublist lim (sortDesc sims))).imp
      (fun {a b} hab => hab)
  · rw [hsearch, List.length_map, List.length_take, length_sortDesc, hlen]
  · intro hge
    rw [hsearch, List.take_of_length_le (by rw [length_sortDesc]; exact hge)]

theorem C9_search_ranked_stable_truncated_witness :
    ∃ sims, computeSims [1] (candidateSet [wellformedRec] none) 0 = .ok sims
      ∧ search_similar_chunks (.ok [wellformedRec]) [1] none 5 =
          ((sortDesc sims).take 5).map entryToResult
      ∧ (search_similar_chunks (.ok [wellformedRec]) [1] none 5).Pairwise
          (fun x y => simLT x.similarity y.similarity = false)
      ∧ (sortDesc sims).Pairwise (fun a b =>
          simLT a.sim b.sim = false ∧ simLT b.sim a.sim = false → a.idx < b.idx)
      ∧ (search_similar_chunks (.ok [wellformedRec]) [1] none 5).length =
          min 5 ((candidateSet [wellformedRec] none).filter
            (fun r => r.embedding ≠ [])).length
      ∧ (sims.length ≤ 5 →
          search_similar_chunks (.ok [wellformedRec]) [1] none 5 =
            (sortDesc sims).map entryToResult)
      ∧ search_similar_chunks (.ok [wellformedRec]) [1] none 5 =
          search_similar_chunks (.ok [wellformedRec]) [1] none 5 :=
  C9_search_ranked_stable_truncated [wellformedRec] [1] none 5
    (by norm_num [sumSq, dotList])
    (by
      intro r hr hne
      have hr' : r = wellformedRec := by simpa [candidateSet, isTruthy] using hr
      subst hr'
      exact ⟨rfl, by norm_num [sumSq, dotList, wellformedRec]⟩)
